import Mathlib

/-!
Verification of the spaced-repetition scheduling core of
`turkish-cards-android` (`src/main.py`).

The Python core is shallowly embedded: each Python function of the
`StudyEngine` scheduling core (and the module-level helpers it uses) is
translated to a Lean definition of the same name.  Python `int` values are
modelled as `Int`; Python dict records are modelled as structures; Python
exceptions are modelled with `Except`; the two sources of randomness
(`random.choices` in `pick_from_pool` and `random.choice` in `next_card`)
are modelled as explicit parameters (an arbitrary index into the pool, and
a Boolean side flag), which over-approximates the support of the real
distributions (all weights produced by `pick_from_pool` are positive on
normalized words, so every pool element really is in the support).
-/

namespace TurkishCards

/-- Module constant `POOL_SIZE = 40` of `main.py`. -/
def POOL_SIZE : Nat := 40

/-- Module constant `STREAK_TO_GRADUATE = 3` of `main.py`. -/
def STREAK_TO_GRADUATE : Int := 3

/-- Module constant `MAX_STAGE = 6` of `main.py`. -/
def MAX_STAGE : Int := 6

/-- Module constant `MIN_VERB_SHARE = 0.35` of `main.py`, as a rational. -/
def MIN_VERB_SHARE : ℚ := 35 / 100

/-- `day_seconds(days)` of `main.py`: `int(days) * 24 * 60 * 60`. -/
def day_seconds (days : Int) : Int := days * 24 * 60 * 60

/-- The dict lookup `STAGE_COOLDOWN_DAYS.get(stage, 2)` of `main.py`:
the table maps stage 1 to 1 day, 2 to 2, 3 to 4, 4 to 7, 5 to 14, 6 to 30,
and every other stage to the default of 2 days. -/
def STAGE_COOLDOWN_DAYS (stage : Int) : Int :=
  if stage = 1 then 1
  else if stage = 2 then 2
  else if stage = 3 then 4
  else if stage = 4 then 7
  else if stage = 5 then 14
  else if stage = 6 then 30
  else 2

/-- A normalized word record (the shape every element of
`StudyEngine.words` has after `normalize_word`).  Field names follow the
dict keys of `main.py`: `tr` is the source text, `ru` the list of
translations, and `stage`, `streak`, `due`, `again`, `correct` the five
integer fields. -/
structure Word where
  tr : String
  ru : List String
  stage : Int
  streak : Int
  due : Int
  again : Int
  correct : Int
deriving Repr, DecidableEq

instance : Inhabited Word :=
  ⟨{ tr := "", ru := [], stage := 0, streak := 0, due := 0, again := 0, correct := 0 }⟩

/-- Python `str.strip()` on a list of characters: drop whitespace from
both ends. -/
def stripChars (l : List Char) : List Char :=
  ((l.dropWhile Char.isWhitespace).reverse.dropWhile Char.isWhitespace).reverse

/-- Python `str.lower()` on a list of characters (ASCII lowering; the
suffix tests below only compare against the ASCII strings "mek"/"mak"). -/
def lowerChars (l : List Char) : List Char := l.map Char.toLower

/-- `is_infinitive_verb(tr)` of `main.py`:
`tr = (tr or "").strip().lower()` and then
`(" " not in tr) and (tr.endswith("mek") or tr.endswith("mak"))`. -/
def is_infinitive_verb (tr : String) : Bool :=
  let t := lowerChars (stripChars tr.toList)
  (!t.contains ' ') && (("mek".toList.isSuffixOf t) || ("mak".toList.isSuffixOf t))

/-- `complexity_score(word)` of `main.py`:
`spaces * 10.0 + length / 10.0`, minus `3.0` when the text is an
infinitive verb.  For the integer magnitudes involved the Python float
computation is exact up to the fixed denominator 10, so the score is
modelled as a rational. -/
def complexity_score (w : Word) : ℚ :=
  (w.tr.toList.count ' ' : ℚ) * 10 + (w.tr.length : ℚ) / 10
    - (if is_infinitive_verb w.tr then 3 else 0)

/-- `complexity_score` scaled by the fixed denominator 10, an integer.
Comparing these integers is equivalent to comparing scores
(`complexity_score10_le_iff`); the sort relation below uses the integer
form so that it evaluates by kernel reduction. -/
def complexity_score10 (w : Word) : Int :=
  (w.tr.toList.count ' ' : Int) * 100 + (w.tr.length : Int)
    - (if is_infinitive_verb w.tr then 30 else 0)

theorem complexity_score_eq_score10_div (w : Word) :
    complexity_score w = (complexity_score10 w : ℚ) / 10 := by
  unfold complexity_score complexity_score10
  by_cases h : is_infinitive_verb w.tr <;> simp [h] <;> push_cast <;> ring

theorem complexity_score10_le_iff (a b : Word) :
    complexity_score10 a ≤ complexity_score10 b ↔
      complexity_score a ≤ complexity_score b := by
  rw [complexity_score_eq_score10_div, complexity_score_eq_score10_div]
  rw [div_le_div_iff_of_pos_right (by norm_num : (0 : ℚ) < 10)]
  exact_mod_cast Iff.rfl

/-- The value of one numeric field of a raw (persisted / legacy) record:
either a value that Python `int(...)` coerces to `n`, or a value on which
`int(...)` raises. -/
inductive IntVal where
  | ok (n : Int)
  | bad
deriving Repr, DecidableEq

/-- The value of the `ru` field of a raw record: either a scalar string
(which normalization wraps into a one-element list) or a list of strings. -/
inductive RuVal where
  | scalar (s : String)
  | seq (l : List String)
deriving Repr, DecidableEq

/-- A raw persisted record, i.e. one dict of the `words.json` array before
`normalize_word`.  `none` models an absent key. -/
structure RawWord where
  tr : Option String := none
  ru : Option RuVal := none
  stage : Option IntVal := none
  streak : Option IntVal := none
  due : Option IntVal := none
  again : Option IntVal := none
  correct : Option IntVal := none
  interval : Option IntVal := none
deriving Repr, DecidableEq

/-- Python `int(v)` on a field value: yields the coerced integer or raises. -/
def coerceInt (v : IntVal) : Except String Int :=
  match v with
  | .ok n => .ok n
  | .bad => .error "int() raised"

/-- One iteration of the coercion loop of `normalize_word`:
`try: w[k] = int(w.get(k, d)) except Exception: w[k] = d`. -/
def coerceOrDefault (v : Option IntVal) (d : Int) : Int :=
  match v with
  | some (.ok n) => n
  | some .bad => d
  | none => d

/-- `normalize_word(w)` of `main.py`, translated statement by statement.
The result is `Except` because two statements of the Python function can
raise: `int(w.get("interval", 1))` (run when `"stage" not in w`) and the
eagerly evaluated default argument `int(w.get("correct", 0))` of the
`setdefault` on line 79 — neither is inside the `try`/`except` fallback
loop. -/
def normalize_word (w : RawWord) : Except String Word := do
  let tr := w.tr.getD ""
  let ru0 := w.ru.getD (.seq [])
  -- if "stage" not in w: w["stage"] = min(MAX_STAGE, max(0, int(w.get("interval", 1)) - 1))
  let stage0 : IntVal ←
    match w.stage with
    | some v => pure v
    | none => do
        let interval ← coerceInt (w.interval.getD (.ok 1))
        pure (.ok (min MAX_STAGE (max 0 (interval - 1))))
  -- w.setdefault("correct", int(w.get("correct", 0))): the default argument
  -- is evaluated even when the key is present, so a bad value raises here.
  let correctDefault ← coerceInt (w.correct.getD (.ok 0))
  let correct0 : IntVal := w.correct.getD (.ok correctDefault)
  -- the try/except coercion loop (streak/due/again default to 0 via setdefault
  -- first, which is absorbed by the loop's identical defaults)
  let stage1 := coerceOrDefault (some stage0) 0
  let streak := coerceOrDefault w.streak 0
  let due := coerceOrDefault w.due 0
  let again1 := coerceOrDefault w.again 0
  let correct := coerceOrDefault (some correct0) 0
  -- final clamps and the scalar-translation wrap
  let stage := min MAX_STAGE (max 0 stage1)
  let again := min 10 (max 0 again1)
  let ru : List String :=
    match ru0 with
    | .scalar s => [s]
    | .seq l => l
  pure { tr := tr, ru := ru, stage := stage, streak := streak, due := due,
         again := again, correct := correct }

/-- Serialization of a normalized word back to a raw record: `json.dump`
writes every field of the dict, integers stay integers and the translation
list stays a list, so reading the file back presents exactly these raw
values to `normalize_word`. -/
def toRaw (w : Word) : RawWord :=
  { tr := some w.tr, ru := some (.seq w.ru), stage := some (.ok w.stage),
    streak := some (.ok w.streak), due := some (.ok w.due),
    again := some (.ok w.again), correct := some (.ok w.correct),
    interval := none }

/-- `DEFAULT_WORDS` of `main.py`, as raw records. -/
def DEFAULT_WORDS : List RawWord :=
  [ { tr := some "ev", ru := some (.seq ["дом"]), stage := some (.ok 0),
      streak := some (.ok 0), due := some (.ok 0), again := some (.ok 0),
      correct := some (.ok 0) },
    { tr := some "gitmek", ru := some (.seq ["идти", "ехать", "уезжать"]),
      stage := some (.ok 0), streak := some (.ok 0), due := some (.ok 0),
      again := some (.ok 0), correct := some (.ok 0) },
    { tr := some "güzel", ru := some (.seq ["красивый", "хороший", "приятный"]),
      stage := some (.ok 0), streak := some (.ok 0), due := some (.ok 0),
      again := some (.ok 0), correct := some (.ok 0) },
    { tr := some "almak", ru := some (.seq ["брать", "покупать", "получать"]),
      stage := some (.ok 0), streak := some (.ok 0), due := some (.ok 0),
      again := some (.ok 0), correct := some (.ok 0) },
    { tr := some "zaman", ru := some (.seq ["время", "период"]),
      stage := some (.ok 0), streak := some (.ok 0), due := some (.ok 0),
      again := some (.ok 0), correct := some (.ok 0) } ]

/-- The state of the persisted `words.json` file as `load_words` finds it:
absent, present but not valid JSON (`json.load` raises), or a parsed array
of raw records. -/
inductive FileState where
  | absent
  | corrupt
  | contents (data : List RawWord)
deriving Repr, DecidableEq

/-- `StudyEngine.load_words` of `main.py` over the abstract file state.
When the file exists its contents are parsed by `json.load` — which raises
on a corrupt file, with no surrounding `try`/`except` — and every record is
passed through `normalize_word` (whose own failures also propagate).  When
the file does not exist the normalized `DEFAULT_WORDS` are returned (the
accompanying attempt to write them to disk swallows errors and does not
affect the returned value). -/
def load_words (fs : FileState) : Except String (List Word) :=
  match fs with
  | .contents data => data.mapM normalize_word
  | .corrupt => .error "json.load raised"
  | .absent => DEFAULT_WORDS.mapM normalize_word

/-- `StudyEngine.save_words` of `main.py`: `json.dump` of the in-memory
words, with no `try`/`except` — a write failure (modelled by the
`writeOk` flag) raises to the caller.  On success the file holds exactly
the serialized words. -/
def save_words (writeOk : Bool) (words : List Word) : Except String FileState :=
  if writeOk then .ok (.contents (words.map toRaw)) else .error "write raised"

/-- The body of `StudyEngine.answer_know` of `main.py` applied to the
current word `w`, with `t` the value returned by `now()` during the call. -/
def answer_know_word (t : Int) (w : Word) : Word :=
  let w1 : Word := { w with correct := w.correct + 1, streak := w.streak + 1 }
  if STREAK_TO_GRADUATE ≤ w1.streak then
    let w2 : Word := { w1 with streak := 0, stage := min MAX_STAGE (w1.stage + 1) }
    if w2.stage < MAX_STAGE then
      { w2 with due := t + day_seconds (STAGE_COOLDOWN_DAYS w2.stage) }
    else
      { w2 with due := 0 }
  else
    { w1 with due := 0 }

/-- The body of `StudyEngine.answer_dont_know` of `main.py` applied to the
current word `w`. -/
def answer_dont_know_word (w : Word) : Word :=
  let w1 : Word := { w with streak := 0, due := 0 }
  let w2 : Word := if 0 < w1.stage then { w1 with stage := w1.stage - 1 } else w1
  { w2 with again := min 10 (w2.again + 2) }

/-- The mutable state of `StudyEngine`: the owned word list, the derived
pool and the currently presented word.  The Python pool and current word
are references into `self.words`; they are modelled as the index of the
referenced element, paired (for the pool) with the element's value so that
the Python value-equality filters of `refresh_pool` can be mirrored. -/
structure StudyEngine where
  words : List Word
  pool : List (Nat × Word) := []
  current : Option Nat := none
deriving Repr, DecidableEq

/-- `StudyEngine.is_available_now(w)` of `main.py`:
`int(w.get("due", 0)) <= now() and int(w.get("stage", 0)) < MAX_STAGE`,
with `t` the value of `now()`. -/
def is_available_now (t : Int) (w : Word) : Bool :=
  decide (w.due ≤ t) && decide (w.stage < MAX_STAGE)

/-- The sort key comparison of `refresh_pool`:
`available.sort(key=lambda w: (int(w.get("stage", 0)), complexity_score(w)))`
compares the tuples `(stage, complexity_score)` lexicographically.  The
score comparison uses the equivalent integer form `complexity_score10`
(see `complexity_score10_le_iff`). -/
def word_key_le (a b : Word) : Prop :=
  a.stage < b.stage ∨ (a.stage = b.stage ∧ complexity_score10 a ≤ complexity_score10 b)

instance : DecidableRel word_key_le := fun a b =>
  inferInstanceAs (Decidable (_ ∨ _ ∧ _))

/-- The pool is sorted over index/value pairs, comparing values only (the
Python sort permutes the dict references; pairing each with its index
keeps track of which element of `self.words` each reference denotes). -/
def pair_key_le (a b : Nat × Word) : Prop := word_key_le a.2 b.2

instance : DecidableRel pair_key_le := fun a b =>
  inferInstanceAs (Decidable (word_key_le a.2 b.2))

instance : IsTotal (Nat × Word) pair_key_le where
  total a b := by
    unfold pair_key_le word_key_le
    rcases lt_trichotomy a.2.stage b.2.stage with h | h | h
    · exact Or.inl (Or.inl h)
    · rcases le_total (complexity_score10 a.2) (complexity_score10 b.2) with h2 | h2
      · exact Or.inl (Or.inr ⟨h, h2⟩)
      · exact Or.inr (Or.inr ⟨h.symm, h2⟩)
    · exact Or.inr (Or.inl h)

instance : IsTrans (Nat × Word) pair_key_le where
  trans a b c hab hbc := by
    unfold pair_key_le word_key_le at *
    rcases hab with h1 | ⟨h1, h1s⟩ <;> rcases hbc with h2 | ⟨h2, h2s⟩
    · exact Or.inl (h1.trans h2)
    · exact Or.inl (h2 ▸ h1)
    · exact Or.inl (h1 ▸ h2)
    · exact Or.inr ⟨h1.trans h2, h1s.trans h2s⟩

/-- The clamped verb target of `refresh_pool`:
`target_verbs = int(round(POOL_SIZE * MIN_VERB_SHARE))` followed by
`max(0, min(target_verbs, POOL_SIZE))`.  The Python float expression
`40 * 0.35` evaluates to exactly `14.0` (see `target_verbs_eq_round`),
so the clamped target is 14. -/
def target_verbs : Nat := min 14 POOL_SIZE

theorem target_verbs_eq_round :
    target_verbs = (round ((POOL_SIZE : ℚ) * MIN_VERB_SHARE)).toNat := by
  norm_num [target_verbs, POOL_SIZE, MIN_VERB_SHARE, round_eq]
  rfl

/-- The local variable `available` of `StudyEngine.refresh_pool`:
`[w for w in self.words if self.is_available_now(w)]`, over index/value
pairs of the word list, followed by the in-place
`available.sort(key=lambda w: (stage, complexity_score))` (Python's sort
is stable; `List.insertionSort` with a non-strict total relation is the
same stable sort). -/
def sorted_available (t : Int) (words : List Word) : List (Nat × Word) :=
  List.insertionSort pair_key_le
    (words.enum.filter (fun p => is_available_now t p.2))

/-- The local variable `verbs` of `refresh_pool`:
`[w for w in available if is_infinitive_verb(str(w.get("tr", "")))]`. -/
def pool_verbs (t : Int) (words : List Word) : List (Nat × Word) :=
  (sorted_available t words).filter (fun p => is_infinitive_verb p.2.tr)

/-- The local variable `others` of `refresh_pool`:
`[w for w in available if w not in verbs]` — the Python `in` compares
dict values, mirrored by equality on the `Word` component. -/
def pool_others (t : Int) (words : List Word) : List (Nat × Word) :=
  (sorted_available t words).filter
    (fun p => !((pool_verbs t words).any (fun q => decide (q.2 = p.2))))

/-- The pool after the first two `extend` calls of `refresh_pool`:
`pool.extend(verbs[:target_verbs])` and then
`pool.extend(others[:POOL_SIZE - len(pool)])`. -/
def pool_first (t : Int) (words : List Word) : List (Nat × Word) :=
  (pool_verbs t words).take target_verbs ++
    (pool_others t words).take
      (POOL_SIZE - ((pool_verbs t words).take target_verbs).length)

/-- The local variable `rest` of `refresh_pool`:
`[w for w in available if w not in pool]` (value equality again). -/
def pool_rest (t : Int) (words : List Word) : List (Nat × Word) :=
  (sorted_available t words).filter
    (fun p => !((pool_first t words).any (fun q => decide (q.2 = p.2))))

/-- `StudyEngine.refresh_pool` of `main.py`: the first two extends, then —
only when the pool is still short of `POOL_SIZE` — the fill from `rest`. -/
def refresh_pool (t : Int) (words : List Word) : List (Nat × Word) :=
  if (pool_first t words).length < POOL_SIZE then
    pool_first t words ++
      (pool_rest t words).take (POOL_SIZE - (pool_first t words).length)
  else
    pool_first t words

/-- `StudyEngine.pick_from_pool` of `main.py`: `None` on an empty pool,
otherwise one element of the pool.  `random.choices` draws according to
the positive weights computed from stage/again/streak; the draw is
modelled by the explicit index `c`, quantified over in every theorem, so
any pool element may be the result. -/
def pick_from_pool (pool : List (Nat × Word)) (c : Nat) : Option (Nat × Word) :=
  if h : pool.length = 0 then none
  else some (pool.get ⟨c % pool.length, Nat.mod_lt c (Nat.pos_of_ne_zero h)⟩)

/-- `StudyEngine.next_card` of `main.py`.  `t` is the value of `now()`
used by the availability filter, `c` the random draw of
`pick_from_pool`, and `side` the `random.choice([True, False])` deciding
which side of the card is the front.  Returns the `(front, back)` pair
(or `none`) together with the updated engine state; the Boolean records
whether `save_words` was called. -/
def next_card (t : Int) (c : Nat) (side : Bool) (e : StudyEngine) :
    Option (String × String) × StudyEngine × Bool :=
  let pool := refresh_pool t e.words
  let e1 : StudyEngine := { e with pool := pool }
  match pick_from_pool pool c with
  | none => (none, e1, false)
  | some (i, w) =>
    let e2 : StudyEngine := { e1 with current := some i }
    let saved := decide (0 < w.again)
    let w1 : Word := if 0 < w.again then { w with again := max 0 (w.again - 1) } else w
    let e3 : StudyEngine :=
      if 0 < w.again then { e2 with words := e2.words.set i w1 } else e2
    let fb : String × String :=
      if side then (w1.tr, String.intercalate ", " w1.ru)
      else (String.intercalate ", " w1.ru, w1.tr)
    (some fb, e3, saved)

/-- `StudyEngine.answer_know` of `main.py`: a no-op when there is no
current word, otherwise the current word is updated in place and
`save_words` is called.  The Boolean records whether `save_words` ran. -/
def answer_know (t : Int) (e : StudyEngine) : StudyEngine × Bool :=
  match e.current with
  | none => (e, false)
  | some i =>
    ({ e with words := e.words.set i (answer_know_word t (e.words.getD i default)) },
     true)

/-- `StudyEngine.answer_dont_know` of `main.py`: a no-op when there is no
current word, otherwise the current word is updated in place and
`save_words` is called.  The Boolean records whether `save_words` ran. -/
def answer_dont_know (e : StudyEngine) : StudyEngine × Bool :=
  match e.current with
  | none => (e, false)
  | some i =>
    ({ e with words := e.words.set i (answer_dont_know_word (e.words.getD i default)) },
     true)

/-- The word-level invariant of the spec: the stage lies in
`[0, MAX_STAGE]` and the again-penalty in `[0, 10]`. -/
def WordInv (w : Word) : Prop :=
  0 ≤ w.stage ∧ w.stage ≤ MAX_STAGE ∧ 0 ≤ w.again ∧ w.again ≤ 10

instance : DecidablePred WordInv := fun w =>
  inferInstanceAs (Decidable (_ ∧ _ ∧ _ ∧ _))

/-- The engine-level invariant: every owned word satisfies `WordInv`. -/
def EngineInv (e : StudyEngine) : Prop := ∀ w ∈ e.words, WordInv w

instance : ∀ e, Decidable (EngineInv e) := fun e =>
  inferInstanceAs (Decidable (∀ w ∈ e.words, WordInv w))

theorem normalize_word_ok_inv {r : RawWord} {w : Word}
    (h : normalize_word r = Except.ok w) : WordInv w := by
  unfold normalize_word at h
  rcases r with ⟨tr, ru, stage, streak, due, again, correct, interval⟩
  rcases stage with _ | sv
  · rcases interval with _ | ⟨n⟩ | _ <;> rcases correct with _ | ⟨m⟩ | _ <;>
      simp only [Option.getD, coerceInt, coerceOrDefault, bind, Except.bind,
        pure, Except.pure] at h <;>
      first
        | (injection h with h; subst h;
           refine ⟨le_min (by decide) ?_, min_le_left _ _,
             le_min (by decide) (le_max_left _ _), min_le_left _ _⟩;
           exact le_max_of_le_right (le_min (by decide) (le_max_left _ _)))
        | exact absurd h (by simp)
  · rcases correct with _ | ⟨m⟩ | _ <;>
      simp only [Option.getD, coerceInt, coerceOrDefault, bind, Except.bind,
        pure, Except.pure] at h <;>
      first
        | (injection h with h; subst h;
           exact ⟨le_min (by decide) (le_max_left _ _), min_le_left _ _,
             le_min (by decide) (le_max_left _ _), min_le_left _ _⟩)
        | exact absurd h (by simp)

theorem mem_sorted_available {t : Int} {ws : List Word} {p : Nat × Word}
    (hp : p ∈ sorted_available t ws) :
    ws[p.1]? = some p.2 ∧ is_available_now t p.2 = true := by
  unfold sorted_available at hp
  rw [List.mem_insertionSort] at hp
  rw [List.mem_filter] at hp
  obtain ⟨i, x⟩ := p
  exact ⟨List.mk_mem_enum_iff_getElem?.mp hp.1, hp.2⟩

theorem refresh_pool_sublist (t : Int) (ws : List Word) {p : Nat × Word}
    (hp : p ∈ refresh_pool t ws) : p ∈ sorted_available t ws := by
  unfold refresh_pool at hp
  have hfirst : ∀ {q : Nat × Word}, q ∈ pool_first t ws → q ∈ sorted_available t ws := by
    intro q hq
    unfold pool_first at hq
    rcases List.mem_append.mp hq with h | h
    · exact List.mem_of_mem_filter ((List.take_sublist _ _).mem h)
    · exact List.mem_of_mem_filter ((List.take_sublist _ _).mem h)
  split at hp
  · rcases List.mem_append.mp hp with h | h
    · exact hfirst h
    · exact List.mem_of_mem_filter ((List.take_sublist _ _).mem h)
  · exact hfirst hp

theorem mem_refresh_pool {t : Int} {ws : List Word} {p : Nat × Word}
    (hp : p ∈ refresh_pool t ws) :
    ws[p.1]? = some p.2 ∧ is_available_now t p.2 = true :=
  mem_sorted_available (refresh_pool_sublist t ws hp)

theorem sorted_sorted_available (t : Int) (ws : List Word) :
    List.Sorted pair_key_le (sorted_available t ws) :=
  List.sorted_insertionSort pair_key_le _

theorem stage_lt_of_available {t : Int} {w : Word}
    (h : is_available_now t w = true) : w.stage < MAX_STAGE := by
  unfold is_available_now at h
  simp only [Bool.and_eq_true, decide_eq_true_eq] at h
  exact h.2

/-- C2: `answer_dont_know` resets the streak to 0, sets `due` to 0,
decrements the stage by 1 exactly when it was positive (a stage-0 word
stays at stage 0), and sets the again-penalty to `min 10 (again + 2)`;
in particular a word with stage 2 and again-penalty 0 ends with stage 1,
streak 0, due 0 and again-penalty 2. -/
theorem answer_dont_know_spec (w : Word) :
    (answer_dont_know_word w).streak = 0 ∧
    (answer_dont_know_word w).due = 0 ∧
    (0 < w.stage → (answer_dont_know_word w).stage = w.stage - 1) ∧
    (w.stage = 0 → (answer_dont_know_word w).stage = 0) ∧
    (answer_dont_know_word w).again = min 10 (w.again + 2) ∧
    (w.stage = 2 → w.again = 0 →
      (answer_dont_know_word w).stage = 1 ∧ (answer_dont_know_word w).streak = 0 ∧
        (answer_dont_know_word w).due = 0 ∧ (answer_dont_know_word w).again = 2) := by
  unfold answer_dont_know_word
  by_cases h : (0 : Int) < w.stage <;> simp [h] <;> omega

/-- Witness for C2: the scenario word of the spec, with stage 2 and
again-penalty 0, ends as stage 1, streak 0, due 0, again-penalty 2. -/
theorem answer_dont_know_spec_witness :
    (0 : Int) <
        ({ tr := "ev", ru := ["дом"], stage := 2, streak := 1, due := 5, again := 0,
           correct := 3 } : Word).stage ∧
      (answer_dont_know_word
          { tr := "ev", ru := ["дом"], stage := 2, streak := 1, due := 5, again := 0,
            correct := 3 }).stage = 1 ∧
      (answer_dont_know_word
          { tr := "ev", ru := ["дом"], stage := 2, streak := 1, due := 5, again := 0,
            correct := 3 }).again = 2 :=
  ⟨by decide,
   ((answer_dont_know_spec
       { tr := "ev", ru := ["дом"], stage := 2, streak := 1, due := 5, again := 0,
         correct := 3 }).2.2.2.2.2 rfl rfl).1,
   ((answer_dont_know_spec
       { tr := "ev", ru := ["дом"], stage := 2, streak := 1, due := 5, again := 0,
         correct := 3 }).2.2.2.2.2 rfl rfl).2.2.2⟩

/-- C9: when no word is currently presented, `answer_know` and
`answer_dont_know` leave the engine state (in particular every field of
every word) unchanged and do not call `save_words`. -/
theorem answers_are_noops_without_current (t : Int) (e : StudyEngine)
    (h : e.current = none) :
    answer_know t e = (e, false) ∧ answer_dont_know e = (e, false) := by
  unfold answer_know answer_dont_know
  rw [h]
  exact ⟨rfl, rfl⟩

/-- Witness for C9, at a concrete engine with one word and no current
card. -/
theorem answers_are_noops_without_current_witness :
    ({ words := [default], pool := [], current := none } : StudyEngine).current
        = none ∧
      answer_know 7 { words := [default], pool := [], current := none }
        = ({ words := [default], pool := [], current := none }, false) :=
  ⟨rfl,
   (answers_are_noops_without_current 7
     { words := [default], pool := [], current := none } rfl).1⟩

theorem answer_know_word_low (t : Int) (w : Word) (h : w.streak + 1 < 3) :
    answer_know_word t w =
      { w with correct := w.correct + 1, streak := w.streak + 1, due := 0 } := by
  unfold answer_know_word
  rw [if_neg]
  simp only [STREAK_TO_GRADUATE]
  omega

/-- C1 (amended): for a word with `streak = 0` whose stage is below
`MAX_STAGE`, three consecutive `answer_know` calls raise the stage by
exactly 1 and reset the streak to 0; the first two calls leave the stage
unchanged and set `due = 0`, and the graduating call sets
`due = now + cooldown * 86400` when the new stage is below `MAX_STAGE`
and `due = 0` when the new stage is `MAX_STAGE`, where the cooldown table
maps stage 1, 2, 3, 4, 5, 6 to 1, 2, 4, 7, 14, 30 days and defaults to 2
days otherwise. -/
theorem answer_know_three_graduates (w : Word) (t1 t2 t3 : Int)
    (h0 : w.streak = 0) (hs : w.stage < MAX_STAGE) :
    (answer_know_word t1 w).due = 0 ∧
    (answer_know_word t1 w).stage = w.stage ∧
    (answer_know_word t2 (answer_know_word t1 w)).due = 0 ∧
    (answer_know_word t2 (answer_know_word t1 w)).stage = w.stage ∧
    (answer_know_word t3 (answer_know_word t2 (answer_know_word t1 w))).stage
      = w.stage + 1 ∧
    (answer_know_word t3 (answer_know_word t2 (answer_know_word t1 w))).streak
      = 0 ∧
    (w.stage + 1 < MAX_STAGE →
      (answer_know_word t3 (answer_know_word t2 (answer_know_word t1 w))).due
        = t3 + STAGE_COOLDOWN_DAYS (w.stage + 1) * 86400) ∧
    (w.stage + 1 = MAX_STAGE →
      (answer_know_word t3 (answer_know_word t2 (answer_know_word t1 w))).due
        = 0) ∧
    STAGE_COOLDOWN_DAYS 1 = 1 ∧ STAGE_COOLDOWN_DAYS 2 = 2 ∧
    STAGE_COOLDOWN_DAYS 3 = 4 ∧ STAGE_COOLDOWN_DAYS 4 = 7 ∧
    STAGE_COOLDOWN_DAYS 5 = 14 ∧ STAGE_COOLDOWN_DAYS 6 = 30 ∧
    STAGE_COOLDOWN_DAYS 0 = 2 := by
  have e1 : answer_know_word t1 w =
      { w with correct := w.correct + 1, streak := w.streak + 1, due := 0 } :=
    answer_know_word_low t1 w (by omega)
  have e2 : answer_know_word t2 (answer_know_word t1 w) =
      { w with correct := w.correct + 2, streak := w.streak + 2, due := 0 } := by
    rw [e1, answer_know_word_low _ _ (by simp; omega)]
    simp
    omega
  have e3 : answer_know_word t3 (answer_know_word t2 (answer_know_word t1 w)) =
      (if w.stage + 1 < MAX_STAGE then
        { w with correct := w.correct + 3, streak := 0, stage := w.stage + 1,
                 due := t3 + day_seconds (STAGE_COOLDOWN_DAYS (w.stage + 1)) }
      else
        { w with correct := w.correct + 3, streak := 0, stage := w.stage + 1,
                 due := 0 }) := by
    rw [e2]
    unfold answer_know_word
    rw [if_pos (by simp [STREAK_TO_GRADUATE]; omega)]
    have hmin2 : min MAX_STAGE (w.stage + 1) = w.stage + 1 := by
      simp only [MAX_STAGE] at hs ⊢
      omega
    simp only [hmin2]
    split_ifs with h <;> simp [h0] <;> omega
  refine ⟨by rw [e1], by rw [e1], by rw [e2], by rw [e2], ?_, ?_, ?_, ?_,
    rfl, rfl, rfl, rfl, rfl, rfl, rfl⟩
  · rw [e3]; split_ifs <;> rfl
  · rw [e3]; split_ifs <;> rfl
  · intro h; rw [e3, if_pos h]
    simp [day_seconds]
    ring
  · intro h; rw [e3, if_neg (by omega)]

/-- Counterexample for C1 as frozen: a word already at `MAX_STAGE = 6`
with `streak = 0` keeps stage 6 after three consecutive `answer_know`
calls, so its stage is not raised by exactly 1. -/
theorem answer_know_three_counterexample :
    ¬ ((answer_know_word 0 (answer_know_word 0 (answer_know_word 0
          { tr := "zaman", ru := ["время"], stage := 6, streak := 0, due := 0,
            again := 0, correct := 0 }))).stage
        = ({ tr := "zaman", ru := ["время"], stage := 6, streak := 0, due := 0,
             again := 0, correct := 0 } : Word).stage + 1) := by
  decide

/-- Witness for C1 (amended): a stage-2, streak-0 word graduates to stage
3 on the third call, with the 4-day cooldown of stage 3 applied. -/
theorem answer_know_three_graduates_witness :
    ({ tr := "ev", ru := ["дом"], stage := 2, streak := 0, due := 0, again := 0,
        correct := 0 } : Word).streak = 0 ∧
      ({ tr := "ev", ru := ["дом"], stage := 2, streak := 0, due := 0, again := 0,
          correct := 0 } : Word).stage < MAX_STAGE ∧
      (answer_know_word 1000 (answer_know_word 500 (answer_know_word 100
          { tr := "ev", ru := ["дом"], stage := 2, streak := 0, due := 0,
            again := 0, correct := 0 }))).stage
        = ({ tr := "ev", ru := ["дом"], stage := 2, streak := 0, due := 0,
             again := 0, correct := 0 } : Word).stage + 1 :=
  ⟨rfl, by decide,
   (answer_know_three_graduates
      { tr := "ev", ru := ["дом"], stage := 2, streak := 0, due := 0, again := 0,
        correct := 0 }
      100 500 1000 rfl (by decide)).2.2.2.2.1⟩

theorem pick_from_pool_mem {pool : List (Nat × Word)} {c : Nat}
    {p : Nat × Word} (h : pick_from_pool pool c = some p) : p ∈ pool := by
  unfold pick_from_pool at h
  split at h
  · exact absurd h (by simp)
  · injection h with h
    exact h ▸ List.get_mem _ _ _

/-- C3: a word at `MAX_STAGE` (6) is never available regardless of its
`due`, never appears in the pool built by `refresh_pool`, and is never the
word selected (and hence presented) by `next_card`: the selected word
always has stage strictly below `MAX_STAGE`. -/
theorem max_stage_never_selected :
    (∀ (t : Int) (w : Word), w.stage = MAX_STAGE →
      is_available_now t w = false) ∧
    (∀ (t : Int) (ws : List Word) (p : Nat × Word), p ∈ refresh_pool t ws →
      p.2.stage < MAX_STAGE) ∧
    (∀ (t : Int) (c : Nat) (side : Bool) (e : StudyEngine)
      (fb : String × String), (next_card t c side e).1 = some fb →
      ∃ i w, (next_card t c side e).2.1.current = some i ∧
        e.words[i]? = some w ∧ w.stage < MAX_STAGE) := by
  refine ⟨?_, ?_, ?_⟩
  · intro t w h
    unfold is_available_now
    simp [h]
  · intro t ws p hp
    exact stage_lt_of_available (mem_refresh_pool hp).2
  · intro t c side e fb hfb
    rcases hp : pick_from_pool (refresh_pool t e.words) c with _ | ⟨i, w⟩
    · simp [next_card, hp] at hfb
    · have hmem := pick_from_pool_mem hp
      have hw := mem_refresh_pool hmem
      refine ⟨i, w, ?_, hw.1, stage_lt_of_available hw.2⟩
      simp [next_card, hp]
      split_ifs <;> rfl

/-- Witness for C3: on a concrete engine whose only word is available,
`next_card` returns a card and the selected word has stage below
`MAX_STAGE`. -/
theorem max_stage_never_selected_witness :
    (next_card 100 0 true
        { words := [{ tr := "gitmek", ru := ["идти"], stage := 0, streak := 0,
                      due := 0, again := 0, correct := 0 }],
          pool := [], current := none }).1 = some ("gitmek", "идти") ∧
      (∃ i w,
        (next_card 100 0 true
            { words := [{ tr := "gitmek", ru := ["идти"], stage := 0, streak := 0,
                          due := 0, again := 0, correct := 0 }],
              pool := [], current := none }).2.1.current = some i ∧
          ({ words := [{ tr := "gitmek", ru := ["идти"], stage := 0, streak := 0,
                         due := 0, again := 0, correct := 0 }],
             pool := [], current := none } : StudyEngine).words[i]? = some w ∧
          w.stage < MAX_STAGE) :=
  ⟨by decide,
   max_stage_never_selected.2.2 100 0 true
     { words := [{ tr := "gitmek", ru := ["идти"], stage := 0, streak := 0,
                   due := 0, again := 0, correct := 0 }],
       pool := [], current := none }
     ("gitmek", "идти") (by decide)⟩

theorem answer_know_word_inv (t : Int) {w : Word} (h : WordInv w) :
    WordInv (answer_know_word t w) := by
  unfold WordInv MAX_STAGE at *
  simp only [answer_know_word]
  split_ifs <;> simp_all [MAX_STAGE] <;> omega

theorem answer_dont_know_word_inv {w : Word} (h : WordInv w) :
    WordInv (answer_dont_know_word w) := by
  unfold WordInv MAX_STAGE at *
  simp only [answer_dont_know_word]
  split_ifs <;> simp_all <;> omega

theorem getD_inv {ws : List Word} (hws : ∀ w ∈ ws, WordInv w) (i : Nat) :
    WordInv (ws.getD i default) := by
  rw [List.getD_eq_getElem?_getD]
  rcases h : ws[i]? with _ | w
  · exact ⟨by decide, by decide, by decide, by decide⟩
  · exact hws w (List.getElem?_mem h)

/-- C4: every word produced by normalization satisfies the bounds
`0 ≤ stage ≤ MAX_STAGE` and `0 ≤ again ≤ 10`, and the invariant that all
owned words satisfy these bounds is preserved by each of the three engine
operations `next_card`, `answer_know` and `answer_dont_know`. -/
theorem engine_invariant_preserved :
    (∀ (r : RawWord) (w : Word), normalize_word r = Except.ok w → WordInv w) ∧
    (∀ (t : Int) (c : Nat) (side : Bool) (e : StudyEngine), EngineInv e →
      EngineInv (next_card t c side e).2.1) ∧
    (∀ (t : Int) (e : StudyEngine), EngineInv e →
      EngineInv (answer_know t e).1) ∧
    (∀ (e : StudyEngine), EngineInv e → EngineInv (answer_dont_know e).1) := by
  refine ⟨fun r w h => normalize_word_ok_inv h, ?_, ?_, ?_⟩
  · intro t c side e he
    rcases hp : pick_from_pool (refresh_pool t e.words) c with _ | ⟨i, w⟩
    · intro w hw
      simp only [next_card, hp] at hw
      exact he w hw
    · intro w' hw'
      simp only [next_card, hp] at hw'
      have hmem := mem_refresh_pool (pick_from_pool_mem hp)
      have hwinv : WordInv w := he w (List.getElem?_mem hmem.1)
      split_ifs at hw' with hag
      · rcases List.mem_or_eq_of_mem_set hw' with h | h
        · exact he w' h
        · subst h
          rcases hwinv with ⟨h1, h2, h3, h4⟩
          exact ⟨h1, h2, le_max_left _ _, by simp; omega⟩
      · exact he w' hw'
  · intro t e he
    rcases hc : e.current with _ | i
    · intro w hw
      simp only [answer_know, hc] at hw
      exact he w hw
    · intro w hw
      simp only [answer_know, hc] at hw
      rcases List.mem_or_eq_of_mem_set hw with h | h
      · exact he w h
      · exact h ▸ answer_know_word_inv t (getD_inv he i)
  · intro e he
    rcases hc : e.current with _ | i
    · intro w hw
      simp only [answer_dont_know, hc] at hw
      exact he w hw
    · intro w hw
      simp only [answer_dont_know, hc] at hw
      rcases List.mem_or_eq_of_mem_set hw with h | h
      · exact he w h
      · exact h ▸ answer_dont_know_word_inv (getD_inv he i)

/-- Witness for C4: a concrete engine satisfying the invariant still
satisfies it after `answer_know`. -/
theorem engine_invariant_preserved_witness :
    EngineInv { words := [{ tr := "ev", ru := ["дом"], stage := 2, streak := 2,
                            due := 0, again := 3, correct := 1 }],
                pool := [], current := some 0 } ∧
      EngineInv (answer_know 5
        { words := [{ tr := "ev", ru := ["дом"], stage := 2, streak := 2,
                      due := 0, again := 3, correct := 1 }],
          pool := [], current := some 0 }).1 :=
  ⟨by decide,
   engine_invariant_preserved.2.2.1 5
     { words := [{ tr := "ev", ru := ["дом"], stage := 2, streak := 2,
                   due := 0, again := 3, correct := 1 }],
       pool := [], current := some 0 }
     (by decide)⟩

/-- C10: `next_card` mutates at most the selected word, and of it only the
`again` field — decremented by 1 and floored at 0, and only when it was
positive; every other word, and every other field of the selected word,
is unchanged, and the word list keeps its length. -/
theorem next_card_frame (t : Int) (c : Nat) (side : Bool) (e : StudyEngine) :
    (next_card t c side e).2.1.words.length = e.words.length ∧
    ((next_card t c side e).1 = none →
      (next_card t c side e).2.1.words = e.words) ∧
    ((next_card t c side e).1 ≠ none →
      ∃ i w, (next_card t c side e).2.1.current = some i ∧
        e.words[i]? = some w ∧
        ((next_card t c side e).2.1.words)[i]? = some
          { w with again := if 0 < w.again then max 0 (w.again - 1) else w.again } ∧
        (∀ j, j ≠ i → ((next_card t c side e).2.1.words)[j]? = e.words[j]?)) := by
  rcases hp : pick_from_pool (refresh_pool t e.words) c with _ | ⟨i, w⟩
  · refine ⟨?_, ?_, ?_⟩ <;> simp [next_card, hp]
  · have hmem := mem_refresh_pool (pick_from_pool_mem hp)
    obtain ⟨hlt, hget⟩ := List.getElem?_eq_some_iff.mp hmem.1
    refine ⟨?_, ?_, ?_⟩
    · simp only [next_card, hp]
      split_ifs <;> simp
    · intro hnone
      simp [next_card, hp] at hnone
    · intro _
      simp only [next_card, hp]
      split_ifs with hag
      · refine ⟨i, w, rfl, hmem.1, ?_, ?_⟩
        · rw [if_pos hag]
          exact List.getElem?_set_self hlt
        · intro j hj
          exact List.getElem?_set_ne (fun h => hj h.symm)
      · refine ⟨i, w, rfl, hmem.1, ?_, fun j hj => rfl⟩
        rw [if_neg hag]
        exact hmem.1

/-- Witness for C10: on a concrete two-word engine, `next_card` returns a
card and only the selected word's `again` field changes. -/
theorem next_card_frame_witness :
    (next_card 100 1 true
        { words := [{ tr := "ev", ru := ["дом"], stage := 0, streak := 0,
                      due := 0, again := 0, correct := 0 },
                    { tr := "gitmek", ru := ["идти"], stage := 0, streak := 0,
                      due := 0, again := 2, correct := 0 }],
          pool := [], current := none }).1 ≠ none ∧
      (∃ i w,
        (next_card 100 1 true
            { words := [{ tr := "ev", ru := ["дом"], stage := 0, streak := 0,
                          due := 0, again := 0, correct := 0 },
                        { tr := "gitmek", ru := ["идти"], stage := 0, streak := 0,
                          due := 0, again := 2, correct := 0 }],
              pool := [], current := none }).2.1.current = some i ∧
        ({ words := [{ tr := "ev", ru := ["дом"], stage := 0, streak := 0,
                       due := 0, again := 0, correct := 0 },
                     { tr := "gitmek", ru := ["идти"], stage := 0, streak := 0,
                       due := 0, again := 2, correct := 0 }],
           pool := [], current := none } : StudyEngine).words[i]? = some w ∧
        ((next_card 100 1 true
            { words := [{ tr := "ev", ru := ["дом"], stage := 0, streak := 0,
                          due := 0, again := 0, correct := 0 },
                        { tr := "gitmek", ru := ["идти"], stage := 0, streak := 0,
                          due := 0, again := 2, correct := 0 }],
              pool := [], current := none }).2.1.words)[i]? = some
          { w with again := if 0 < w.again then max 0 (w.again - 1) else w.again } ∧
        (∀ j, j ≠ i →
          ((next_card 100 1 true
              { words := [{ tr := "ev", ru := ["дом"], stage := 0, streak := 0,
                            due := 0, again := 0, correct := 0 },
                          { tr := "gitmek", ru := ["идти"], stage := 0, streak := 0,
                            due := 0, again := 2, correct := 0 }],
                pool := [], current := none }).2.1.words)[j]? =
            ({ words := [{ tr := "ev", ru := ["дом"], stage := 0, streak := 0,
                           due := 0, again := 0, correct := 0 },
                         { tr := "gitmek", ru := ["идти"], stage := 0, streak := 0,
                           due := 0, again := 2, correct := 0 }],
               pool := [], current := none } : StudyEngine).words[j]?)) :=
  ⟨by decide,
   (next_card_frame 100 1 true
      { words := [{ tr := "ev", ru := ["дом"], stage := 0, streak := 0,
                    due := 0, again := 0, correct := 0 },
                  { tr := "gitmek", ru := ["идти"], stage := 0, streak := 0,
                    due := 0, again := 2, correct := 0 }],
        pool := [], current := none }).2.2 (by decide)⟩

theorem pool_verbs_length (t : Int) (ws : List Word) :
    (pool_verbs t ws).length =
      (ws.filter (fun w => is_available_now t w && is_infinitive_verb w.tr)).length := by
  unfold pool_verbs sorted_available
  rw [← List.countP_eq_length_filter, ← List.countP_eq_length_filter]
  rw [(List.perm_insertionSort pair_key_le _).countP_eq]
  rw [List.countP_filter]
  conv_rhs => rw [← List.enum_map_snd ws]
  rw [List.countP_map]
  refine List.countP_congr (fun p _ => ?_)
  simp [Function.comp, Bool.and_comm]

theorem pool_first_length_le (t : Int) (ws : List Word) :
    (pool_first t ws).length ≤ POOL_SIZE := by
  unfold pool_first
  rw [List.length_append]
  have h1 := List.length_take_le target_verbs (pool_verbs t ws)
  have h2 := List.length_take_le
    (POOL_SIZE - ((pool_verbs t ws).take target_verbs).length)
    (pool_others t ws)
  have ht : target_verbs ≤ POOL_SIZE := by decide
  omega

theorem refresh_pool_length_le (t : Int) (ws : List Word) :
    (refresh_pool t ws).length ≤ POOL_SIZE := by
  unfold refresh_pool
  split_ifs with h
  · rw [List.length_append]
    have h2 := List.length_take_le (POOL_SIZE - (pool_first t ws).length)
      (pool_rest t ws)
    omega
  · exact pool_first_length_le t ws

theorem refresh_pool_verb_count (t : Int) (ws : List Word)
    (h : target_verbs ≤ (pool_verbs t ws).length) :
    target_verbs ≤
      (refresh_pool t ws).countP (fun p => is_infinitive_verb p.2.tr) := by
  have hall : ∀ p ∈ (pool_verbs t ws).take target_verbs,
      is_infinitive_verb p.2.tr := by
    intro p hp
    have hm := (List.take_sublist _ _).mem hp
    unfold pool_verbs at hm
    exact (List.mem_filter.mp hm).2
  have hcount : ((pool_verbs t ws).take target_verbs).countP
      (fun p => is_infinitive_verb p.2.tr) = target_verbs := by
    rw [List.countP_eq_length.mpr hall, List.length_take]
    omega
  unfold refresh_pool
  split_ifs with hlen
  · unfold pool_first
    rw [List.append_assoc, List.countP_append, hcount]
    omega
  · unfold pool_first
    rw [List.countP_append, hcount]
    omega

theorem pool_others_not_verb (t : Int) (ws : List Word) {p : Nat × Word}
    (hp : p ∈ pool_others t ws) : is_infinitive_verb p.2.tr = false := by
  unfold pool_others at hp
  obtain ⟨hmem, hpred⟩ := List.mem_filter.mp hp
  cases hb : is_infinitive_verb p.2.tr
  · rfl
  · have hpv : p ∈ pool_verbs t ws := List.mem_filter.mpr ⟨hmem, hb⟩
    have hany : (pool_verbs t ws).any (fun q => decide (q.2 = p.2)) = true :=
      List.any_eq_true.mpr ⟨p, hpv, by simp⟩
    rw [hany] at hpred
    simp at hpred

/-- The claim-facing sort relation on pool entries: ascending
`(stage, complexity_score)`, stated with the rational score of the
source. -/
def pair_score_le (p q : Nat × Word) : Prop :=
  p.2.stage < q.2.stage ∨
    (p.2.stage = q.2.stage ∧ complexity_score p.2 ≤ complexity_score q.2)

theorem pair_key_le_iff_score (p q : Nat × Word) :
    pair_key_le p q ↔ pair_score_le p q := by
  unfold pair_key_le word_key_le pair_score_le
  rw [complexity_score10_le_iff]

theorem sorted_score_of_sorted_key {L : List (Nat × Word)}
    (h : List.Sorted pair_key_le L) : List.Sorted pair_score_le L :=
  h.imp (fun hab => (pair_key_le_iff_score _ _).mp hab)

/-- C5: the pool built by `refresh_pool` never exceeds `POOL_SIZE = 40`
entries; whenever at least `target_verbs = round(40 × 0.35) = 14` eligible
infinitive verbs exist, the pool contains at least 14 infinitive-verb
entries; every pool entry is an available word; and the pool decomposes as
up to 14 verbs, then non-verbs, then remaining available words, each
segment sorted in ascending `(stage, complexity_score)` order. -/
theorem refresh_pool_spec (t : Int) (ws : List Word) :
    (refresh_pool t ws).length ≤ POOL_SIZE ∧
    (target_verbs ≤ (ws.filter (fun w =>
        is_available_now t w && is_infinitive_verb w.tr)).length →
      target_verbs ≤
        (refresh_pool t ws).countP (fun p => is_infinitive_verb p.2.tr)) ∧
    (∀ p ∈ refresh_pool t ws, is_available_now t p.2 = true) ∧
    ∃ A B C, refresh_pool t ws = A ++ B ++ C ∧
      A.length ≤ target_verbs ∧
      (∀ p ∈ A, is_infinitive_verb p.2.tr = true) ∧
      (∀ p ∈ B, is_infinitive_verb p.2.tr = false) ∧
      (∀ p ∈ C, is_available_now t p.2 = true) ∧
      List.Sorted pair_score_le A ∧ List.Sorted pair_score_le B ∧
      List.Sorted pair_score_le C := by
  have hsorted := sorted_sorted_available t ws
  have hA : ∀ p ∈ (pool_verbs t ws).take target_verbs,
      is_infinitive_verb p.2.tr = true := by
    intro p hp
    have hm := (List.take_sublist _ _).mem hp
    unfold pool_verbs at hm
    exact (List.mem_filter.mp hm).2
  have hAs : List.Sorted pair_key_le ((pool_verbs t ws).take target_verbs) :=
    List.Pairwise.sublist
      ((List.take_sublist _ _).trans (by unfold pool_verbs; exact List.filter_sublist _))
      hsorted
  have hBs : ∀ n, List.Sorted pair_key_le ((pool_others t ws).take n) :=
    fun n => List.Pairwise.sublist
      ((List.take_sublist _ _).trans (by unfold pool_others; exact List.filter_sublist _))
      hsorted
  have hCs : ∀ n, List.Sorted pair_key_le ((pool_rest t ws).take n) :=
    fun n => List.Pairwise.sublist
      ((List.take_sublist _ _).trans (by unfold pool_rest; exact List.filter_sublist _))
      hsorted
  have hB : ∀ n p, p ∈ (pool_others t ws).take n →
      is_infinitive_verb p.2.tr = false :=
    fun n p hp => pool_others_not_verb t ws ((List.take_sublist _ _).mem hp)
  refine ⟨refresh_pool_length_le t ws, ?_,
    fun p hp => (mem_refresh_pool hp).2, ?_⟩
  · intro h
    refine refresh_pool_verb_count t ws ?_
    rw [pool_verbs_length]
    exact h
  · by_cases hb : (pool_first t ws).length < POOL_SIZE
    · refine ⟨(pool_verbs t ws).take target_verbs,
        (pool_others t ws).take
          (POOL_SIZE - ((pool_verbs t ws).take target_verbs).length),
        (pool_rest t ws).take (POOL_SIZE - (pool_first t ws).length),
        ?_, List.length_take_le _ _, hA, hB _, ?_,
        sorted_score_of_sorted_key hAs, sorted_score_of_sorted_key (hBs _),
        sorted_score_of_sorted_key (hCs _)⟩
      · unfold refresh_pool
        rw [if_pos hb]
        unfold pool_first
        rw [List.append_assoc]
      · intro p hp
        have hm := (List.take_sublist _ _).mem hp
        unfold pool_rest at hm
        exact (mem_sorted_available (List.mem_of_mem_filter hm)).2
    · refine ⟨(pool_verbs t ws).take target_verbs,
        (pool_others t ws).take
          (POOL_SIZE - ((pool_verbs t ws).take target_verbs).length),
        [], ?_, List.length_take_le _ _, hA, hB _, by simp,
        sorted_score_of_sorted_key hAs, sorted_score_of_sorted_key (hBs _),
        List.sorted_nil⟩
      unfold refresh_pool
      rw [if_neg hb]
      unfold pool_first
      rw [List.append_nil]

/-- Witness for C5: with 14 eligible infinitive verbs in the collection,
the pool contains at least `target_verbs = 14` verb entries. -/
theorem refresh_pool_spec_witness :
    target_verbs ≤ ((List.replicate 14
        ({ tr := "gitmek", ru := ["идти"], stage := 0, streak := 0, due := 0,
           again := 0, correct := 0 } : Word)).filter (fun w =>
        is_available_now 0 w && is_infinitive_verb w.tr)).length ∧
      target_verbs ≤ (refresh_pool 0 (List.replicate 14
        ({ tr := "gitmek", ru := ["идти"], stage := 0, streak := 0, due := 0,
           again := 0, correct := 0 } : Word))).countP
        (fun p => is_infinitive_verb p.2.tr) :=
  ⟨by decide,
   (refresh_pool_spec 0 (List.replicate 14
      ({ tr := "gitmek", ru := ["идти"], stage := 0, streak := 0, due := 0,
         again := 0, correct := 0 } : Word))).2.1 (by decide)⟩

/-- Counterexample for C6 as frozen: a present-but-corrupt persisted file
makes `load_words` fail (the `json.load` call has no surrounding
`try`/`except`), and a write error makes `save_words` fail — neither
degrades to defaults nor swallows the error. -/
theorem load_save_error_counterexample :
    load_words FileState.corrupt = Except.error "json.load raised" ∧
      save_words false [] = Except.error "write raised" :=
  ⟨rfl, rfl⟩

/-- C6 (amended): only the missing-file path degrades to defaults —
`load_words` returns the five normalized default words when no persisted
file exists (the accompanying write of the defaults swallows its errors),
while a corrupt existing file makes `load_words` raise and a write error
makes `save_words` raise to the caller (the in-memory word list passed to
`save_words` is not modified by it in either case). -/
theorem load_save_error_behaviour :
    load_words FileState.absent = Except.ok
      [ { tr := "ev", ru := ["дом"], stage := 0, streak := 0, due := 0,
          again := 0, correct := 0 },
        { tr := "gitmek", ru := ["идти", "ехать", "уезжать"], stage := 0,
          streak := 0, due := 0, again := 0, correct := 0 },
        { tr := "güzel", ru := ["красивый", "хороший", "приятный"], stage := 0,
          streak := 0, due := 0, again := 0, correct := 0 },
        { tr := "almak", ru := ["брать", "покупать", "получать"], stage := 0,
          streak := 0, due := 0, again := 0, correct := 0 },
        { tr := "zaman", ru := ["время", "период"], stage := 0, streak := 0,
          due := 0, again := 0, correct := 0 } ] ∧
    (∀ ws : List Word,
      save_words true ws = Except.ok (FileState.contents (ws.map toRaw))) ∧
    (∀ ws : List Word, save_words false ws = Except.error "write raised") ∧
    load_words FileState.corrupt = Except.error "json.load raised" :=
  ⟨rfl, fun _ => rfl, fun _ => rfl, rfl⟩

/-- C7 (failing input): on a record whose `correct` value is present but
not coercible to an integer, `normalize_word` raises instead of falling
back to the default 0 — the eagerly evaluated `int(w.get("correct", 0))`
default argument of the `setdefault` on line 79 of `main.py` runs outside
the `try`/`except` coercion loop. -/
theorem normalize_word_bad_correct_raises :
    normalize_word
        { tr := some "ev", ru := some (.seq ["дом"]), correct := some .bad }
      = Except.error "int() raised" :=
  rfl

theorem normalize_toRaw {w : Word} (h : WordInv w) :
    normalize_word (toRaw w) = Except.ok w := by
  obtain ⟨h1, h2, h3, h4⟩ := h
  have hstage : min MAX_STAGE (max 0 w.stage) = w.stage := by
    unfold MAX_STAGE at *
    omega
  have hagain : min 10 (max 0 w.again) = w.again := by omega
  simp [normalize_word, toRaw, coerceInt, coerceOrDefault, bind, Except.bind,
    pure, Except.pure, hstage, hagain]

theorem mapM_normalize_toRaw (ws : List Word) (h : ∀ w ∈ ws, WordInv w) :
    (ws.map toRaw).mapM normalize_word = Except.ok ws := by
  induction ws with
  | nil => rfl
  | cons a l ih =>
    rw [List.map_cons, List.mapM_cons, normalize_toRaw (h a (List.mem_cons_self a l)),
      ih (fun w hw => h w (List.mem_cons_of_mem a hw))]
    rfl

/-- C8: for a collection of already-normalized words (each the output of
`normalize_word` on some raw record), saving with `save_words` and loading
the resulting file with `load_words` reproduces every field of every word
exactly, translations order included. -/
theorem save_load_roundtrip (ws : List Word) (fs : FileState)
    (hnorm : ∀ w ∈ ws, ∃ r, normalize_word r = Except.ok w)
    (hsave : save_words true ws = Except.ok fs) :
    load_words fs = Except.ok ws := by
  have hfs : fs = FileState.contents (ws.map toRaw) := by
    unfold save_words at hsave
    rw [if_pos rfl] at hsave
    injection hsave with hsave
    exact hsave.symm
  subst hfs
  unfold load_words
  exact mapM_normalize_toRaw ws
    (fun w hw => (hnorm w hw).elim (fun r hr => normalize_word_ok_inv hr))

/-- Witness for C8, at a concrete one-word normalized collection. -/
theorem save_load_roundtrip_witness :
    (∀ w ∈ [({ tr := "ev", ru := ["дом"], stage := 2, streak := 1, due := 5,
               again := 3, correct := 4 } : Word)],
      ∃ r, normalize_word r = Except.ok w) ∧
      load_words (FileState.contents
          ([({ tr := "ev", ru := ["дом"], stage := 2, streak := 1, due := 5,
               again := 3, correct := 4 } : Word)].map toRaw))
        = Except.ok
          [({ tr := "ev", ru := ["дом"], stage := 2, streak := 1, due := 5,
              again := 3, correct := 4 } : Word)] := by
  have hx : ∀ w ∈ [({ tr := "ev", ru := ["дом"], stage := 2, streak := 1,
                      due := 5, again := 3, correct := 4 } : Word)],
      ∃ r, normalize_word r = Except.ok w := by
    intro w hw
    rw [List.mem_singleton] at hw
    subst hw
    exact ⟨toRaw { tr := "ev", ru := ["дом"], stage := 2, streak := 1, due := 5,
                   again := 3, correct := 4 }, rfl⟩
  exact ⟨hx,
    save_load_roundtrip
      [({ tr := "ev", ru := ["дом"], stage := 2, streak := 1, due := 5,
          again := 3, correct := 4 } : Word)]
      (FileState.contents
        ([({ tr := "ev", ru := ["дом"], stage := 2, streak := 1, due := 5,
             again := 3, correct := 4 } : Word)].map toRaw))
      hx rfl⟩
